import Mathlib

/-!
Verification of the result-aggregation and error-reporting pipeline of the
heat-solver repository (`plot_results.py`).

The embedding models, faithfully to the source:
  * `pd.to_numeric(col, errors="coerce")` as a total coercion from raw CSV
    tokens to extended values (finite rational, plus-or-minus infinity, NaN);
  * `df["error"] = np.abs(df["u_numeric"] - df["u_exact"])` followed by
    `df.replace([np.inf, -np.inf], np.nan)` as `processRecord`;
  * the final-time snapshot, the `np.isfinite` validity filter, the guarded
    L2/Linf/mean summary, the log-axis epsilon floor, the heatmap subsampling,
    and the multi-method comparison loop.

Real numbers from the script are modelled as rationals; NaN/inf propagation is
made explicit through the `EVal` type.  Points where the Python code can raise
an uncaught exception are modelled with `Option` (`none` = exception); code
that cannot raise is modelled by total functions.
-/

namespace HeatSolver

/-- A raw CSV cell for the `u_numeric` / `u_exact` columns: a finite numeric
token, an infinite numeric token (`inf` / `-inf`), or a non-numeric token. -/
inductive Token where
  | num (q : ℚ)
  | infTok (pos : Bool)
  | bad (s : String)
deriving DecidableEq

/-- A float value as pandas sees it after coercion: finite, plus or minus
infinity, or NaN. -/
inductive EVal where
  | fin (q : ℚ)
  | pinf
  | ninf
  | nan
deriving DecidableEq

/-- `pd.to_numeric(value, errors="coerce")`: numeric tokens parse to their
value, infinite tokens to the infinities, and any non-numeric token becomes
NaN instead of raising. -/
def toNumeric : Token → EVal
  | Token.num q => EVal.fin q
  | Token.infTok true => EVal.pinf
  | Token.infTok false => EVal.ninf
  | Token.bad _ => EVal.nan

/-- IEEE-style subtraction on extended values (NaN propagates, `inf - inf`
is NaN). -/
def EVal.sub : EVal → EVal → EVal
  | EVal.nan, _ => EVal.nan
  | _, EVal.nan => EVal.nan
  | EVal.fin a, EVal.fin b => EVal.fin (a - b)
  | EVal.fin _, EVal.pinf => EVal.ninf
  | EVal.fin _, EVal.ninf => EVal.pinf
  | EVal.pinf, EVal.pinf => EVal.nan
  | EVal.pinf, _ => EVal.pinf
  | EVal.ninf, EVal.ninf => EVal.nan
  | EVal.ninf, _ => EVal.ninf

/-- IEEE-style absolute value on extended values (`np.abs`). -/
def EVal.absE : EVal → EVal
  | EVal.fin a => EVal.fin |a|
  | EVal.pinf => EVal.pinf
  | EVal.ninf => EVal.pinf
  | EVal.nan => EVal.nan

/-- `df.replace([np.inf, -np.inf], np.nan)` on one cell. -/
def replaceInfNan : EVal → EVal
  | EVal.pinf => EVal.nan
  | EVal.ninf => EVal.nan
  | v => v

/-- `.fillna(0.0)` on one cell. -/
def fillZero : EVal → EVal
  | EVal.nan => EVal.fin 0
  | v => v

/-- Is the value finite (`np.isfinite`)? -/
def EVal.isFinite : EVal → Bool
  | EVal.fin _ => true
  | _ => false

/-- One input row of the CSV: coordinates `t`, `x`, the two value columns as
raw tokens, and a possibly-present precomputed `error` column written by the
upstream producer. -/
structure Record where
  t : ℚ
  x : ℚ
  u_numeric : Token
  u_exact : Token
  error_col : Option Token
deriving DecidableEq

/-- One row after loading: coerced value columns and the recomputed error
column, all after the infinity-to-NaN replacement. -/
structure PRecord where
  t : ℚ
  x : ℚ
  u_numeric : EVal
  u_exact : EVal
  error : EVal
deriving DecidableEq

/-- Lines 17-22 of `plot_results.py` applied to one row: coerce `u_numeric`
and `u_exact`, recompute `error = np.abs(u_numeric - u_exact)` (overwriting
any stored `error` column), then replace infinities with NaN. -/
def processRecord (r : Record) : PRecord :=
  { t := r.t
    x := r.x
    u_numeric := replaceInfNan (toNumeric r.u_numeric)
    u_exact := replaceInfNan (toNumeric r.u_exact)
    error := replaceInfNan (EVal.absE (EVal.sub (toNumeric r.u_numeric) (toNumeric r.u_exact))) }

/-- The whole loaded dataframe after the coercion/recomputation prologue. -/
def processDataset (ds : List Record) : List PRecord := ds.map processRecord

end HeatSolver

namespace HeatSolver

/-- Stable insertion of an element into a list sorted by the key `key`
(models one step of pandas `sort_values`). -/
def insortKey {α : Type} (key : α → ℚ) (a : α) : List α → List α
  | [] => [a]
  | b :: bs => if key a ≤ key b then a :: b :: bs else b :: insortKey key a bs

/-- `DataFrame.sort_values(key)`: stable sort by a rational key. -/
def sortByKey {α : Type} (key : α → ℚ) (l : List α) : List α :=
  l.foldr (insortKey key) []

/-- Insert into a sorted duplicate-free list, dropping duplicates. -/
def insortU (a : ℚ) : List ℚ → List ℚ
  | [] => [a]
  | b :: bs => if a < b then a :: b :: bs else if a = b then b :: bs else b :: insortU a bs

/-- `sorted(df[col].unique())`: the sorted list of distinct values of a
column. -/
def sortUniq (l : List ℚ) : List ℚ := l.foldr insortU []

/-- `Series.max()` (pandas): `none` on an empty series, else the maximum.
(pandas returns NaN on an empty series; callers wrap accordingly.) -/
def seriesMaxQ : List ℚ → Option ℚ
  | [] => none
  | a :: r => some (r.foldl max a)

/-- `Series.min()` (pandas): `none` on an empty series, else the minimum. -/
def seriesMinQ : List ℚ → Option ℚ
  | [] => none
  | a :: r => some (r.foldl min a)

/-- `np.mean` of a nonempty series, as the exact rational `sum / length`. -/
def meanQ (l : List ℚ) : ℚ := l.sum / l.length

/-- `np.max` applied to a pandas series: NaN when empty. -/
def seriesMaxE (l : List ℚ) : EVal :=
  match seriesMaxQ l with
  | some m => EVal.fin m
  | none => EVal.nan

/-- `np.mean` applied to a pandas series: NaN when empty. -/
def seriesMeanE (l : List ℚ) : EVal :=
  if l.length = 0 then EVal.nan else EVal.fin (meanQ l)

/-- `err_valid = final_data["error"][np.isfinite(final_data["error"])]`:
the finite error values of a snapshot, in order. -/
def validErrors (snap : List PRecord) : List ℚ :=
  snap.filterMap (fun r =>
    match r.error with
    | EVal.fin q => some q
    | _ => none)

/-- The rows of a snapshot whose error is finite (the `valid` mask). -/
def validRecs (snap : List PRecord) : List PRecord :=
  snap.filter (fun r => r.error.isFinite)

/-- `epsilon = 1e-20` (line 92). -/
def epsilon : ℚ := 1 / 10 ^ 20

/-- The log-axis display floor `np.maximum(v, epsilon)` (line 93). -/
def logFloor (v : ℚ) : ℚ := max v epsilon

/-- The reported global error statistics.  `l2sq` is the mean of the squared
valid errors; the script reports `l2 = sqrt(l2sq)`, so `l2` is zero / NaN
exactly when `l2sq` is. -/
structure Stats where
  l2sq : EVal
  linf : EVal
deriving DecidableEq

/-- Lines 160-165: the guarded L2/Linf computation over the valid errors of
the final snapshot; both are NaN when no valid value exists. -/
def singleStats (errs : List ℚ) : Stats :=
  if 0 < errs.length then
    { l2sq := EVal.fin (meanQ (errs.map (fun v => v * v))), linf := seriesMaxE errs }
  else
    { l2sq := EVal.nan, linf := EVal.nan }

/-- Line 190: `np.mean(err_valid) if len(err_valid) > 0 else np.nan`. -/
def meanStat (errs : List ℚ) : EVal :=
  if 0 < errs.length then EVal.fin (meanQ errs) else EVal.nan

/-- The error-distribution panel (graph 3): either the floored values are
plotted, or the explicit "No valid error data" placeholder is rendered. -/
inductive ErrPanel where
  | plotted (vals : List ℚ)
  | noValidData
deriving DecidableEq

/-- Lines 91-119: plot `np.maximum(err_valid, epsilon)` when any valid error
exists, otherwise render the placeholder text. -/
def errPanel (errs : List ℚ) : ErrPanel :=
  if 0 < errs.length then ErrPanel.plotted (errs.map logFloor) else ErrPanel.noValidData

/-- Helper for Python slicing: `c` counts how many elements remain to skip
before the next one is taken; after taking, `k - 1` more are skipped. -/
def takeEveryAux (k : Nat) : Nat → List ℚ → List ℚ
  | _, [] => []
  | 0, a :: rest => a :: takeEveryAux k (k - 1) rest
  | c + 1, _ :: rest => takeEveryAux k c rest

/-- Python's `l[::step]` for `step >= 1`: every `step`-th element, always
including the first. -/
def takeEvery (k : Nat) (l : List ℚ) : List ℚ := takeEveryAux k 0 l

/-- The heatmap data (graph 4): the sorted unique positions (columns), the
subsampled time values (one per matrix row), and the row contents. -/
structure Heatmap where
  x_vals : List ℚ
  t_subset : List ℚ
  rows : List (List EVal)
deriving DecidableEq

/-- `t_vals = sorted(df["t"].unique())` (line 132). -/
def heatTVals (pds : List PRecord) : List ℚ := sortUniq (pds.map (fun r => r.t))

/-- `x_vals = sorted(df["x"].unique())` (line 131). -/
def heatXVals (pds : List PRecord) : List ℚ := sortUniq (pds.map (fun r => r.x))

/-- `step = max(1, len(t_vals) // 50)` (line 134). -/
def heatStep (pds : List PRecord) : Nat := max 1 ((heatTVals pds).length / 50)

/-- `t_vals_subset = t_vals[::step]` (line 135). -/
def heatTSub (pds : List PRecord) : List ℚ := takeEvery (heatStep pds) (heatTVals pds)

/-- One matrix row (lines 139-142): the snapshot at time `tv` sorted by `x`,
`u_numeric` re-coerced with NaN filled by `0.0`. -/
def heatRow (pds : List PRecord) (tv : ℚ) : List EVal :=
  (sortByKey (fun r => r.x) (pds.filter (fun r => decide (r.t = tv)))).map
    (fun r => fillZero r.u_numeric)

/-- Lines 131-142: build the heatmap matrix.  The assignment
`u_matrix[i, :] = row.values` raises a `ValueError` when a row's length does
not match the allocated column count, modelled by `none`. -/
def buildHeatmap (pds : List PRecord) : Option Heatmap :=
  let rows := (heatTSub pds).map (heatRow pds)
  if rows.all (fun row => row.length == (heatXVals pds).length) then
    some { x_vals := heatXVals pds, t_subset := heatTSub pds, rows := rows }
  else
    none

/-- `final_data = df[df["t"] == final_t].sort_values("x")` (line 60). -/
def finalSnapshot (pds : List PRecord) (ft : ℚ) : List PRecord :=
  sortByKey (fun r => r.x) (pds.filter (fun r => decide (r.t = ft)))

/-- Everything the single-dataset invocation reports. -/
structure Report where
  final_t : ℚ
  err_valid : List ℚ
  stats : Stats
  mean_err : EVal
  panel : ErrPanel
  heatmap : Heatmap
deriving DecidableEq

/-- Assemble the report from the processed dataframe, the final time and the
built heatmap. -/
def mkReport (pds : List PRecord) (ft : ℚ) (hm : Heatmap) : Report :=
  { final_t := ft
    err_valid := validErrors (finalSnapshot pds ft)
    stats := singleStats (validErrors (finalSnapshot pds ft))
    mean_err := meanStat (validErrors (finalSnapshot pds ft))
    panel := errPanel (validErrors (finalSnapshot pds ft))
    heatmap := hm }

/-- The body of `plot_results` on a processed dataframe.  `times[-1]` raises
an `IndexError` on an empty dataframe, and the heatmap row assignment can
raise; both exception points are `none`. -/
def reportOfP (pds : List PRecord) : Option Report :=
  match (sortUniq (pds.map (fun r => r.t))).getLast? with
  | none => none
  | some ft =>
    match buildHeatmap pds with
    | none => none
    | some hm => some (mkReport pds ft hm)

/-- `plot_results` on a loaded dataset: coercion prologue then report. -/
def plotResultsDs (ds : List Record) : Option Report :=
  reportOfP (processDataset ds)

/-- Whether the single-dataset pipeline completes without an exception,
expressed purely on the `(t, x)` shape of the input rows: the dataframe must
be nonempty and every subsampled time layer must have exactly one row per
unique position.  (The value columns cannot cause an exception.) -/
def pipelineShapeOk (pairs : List (ℚ × ℚ)) : Bool :=
  match (sortUniq (pairs.map Prod.fst)).getLast? with
  | none => false
  | some _ =>
    (takeEvery (max 1 ((sortUniq (pairs.map Prod.fst)).length / 50))
        (sortUniq (pairs.map Prod.fst))).all
      (fun tv =>
        pairs.countP (fun p => decide (p.1 = tv)) == (sortUniq (pairs.map Prod.snd)).length)

end HeatSolver

namespace HeatSolver

/-- `colors = ["blue", "red", "green", "orange"]` (line 198). -/
def colors : List String := ["blue", "red", "green", "orange"]

/-- `markers = ["o", "s", "^", "d"]` (line 199). -/
def markers : List String := ["o", "s", "^", "d"]

/-- What `compare_methods` retains for one successfully loaded method:
its label, the valid final-time series and the two error norms. -/
structure MethodEntry where
  label : String
  xs : List ℚ
  us : List EVal
  errs : List ℚ
  l2sq : EVal
  linf : EVal
deriving DecidableEq

/-- `final_t = df["t"].max(); final_data = df[df["t"] == final_t]
.sort_values("x")` (lines 213-214).  On an empty dataframe the max is NaN
and the filter matches nothing. -/
def compareFinalSnap (pds : List PRecord) : List PRecord :=
  match seriesMaxQ (pds.map (fun r => r.t)) with
  | some ft => sortByKey (fun r => r.x) (pds.filter (fun r => decide (r.t = ft)))
  | none => []

/-- Lines 206-228 for one loaded dataset: coerce, recompute error, take the
final-time snapshot, keep the finite-error rows, and compute the unguarded
norms (pandas reductions give NaN on an empty selection, they do not raise). -/
def mkEntry (label : String) (ds : List Record) : MethodEntry :=
  { label := label
    xs := (validRecs (compareFinalSnap (processDataset ds))).map (fun r => r.x)
    us := (validRecs (compareFinalSnap (processDataset ds))).map (fun r => r.u_numeric)
    errs := validErrors (compareFinalSnap (processDataset ds))
    l2sq := seriesMeanE ((validErrors (compareFinalSnap (processDataset ds))).map
      (fun v => v * v))
    linf := seriesMaxE (validErrors (compareFinalSnap (processDataset ds))) }

/-- The output of a comparison invocation: the per-method entries in input
order, the warnings for skipped sources, and the single analytical curve. -/
structure CompareReport where
  entries : List MethodEntry
  warnings : List String
  analytical : Option (List (ℚ × EVal))
deriving DecidableEq

/-- The loop of `compare_methods` (lines 201-231).  A missing source is
skipped with a warning; an existing source is loaded and, after its series
is prepared, `colors[idx]` / `markers[idx]` are read — an `IndexError`
(modelled by `none`) when `idx` is past their four entries.  `idx` counts
all pairs, skipped ones included. -/
def compareLoop (fs : String → Option (List Record)) :
    Nat → List (String × String) → Option (List MethodEntry × List String)
  | _, [] => some ([], [])
  | idx, (f, m) :: rest =>
    match fs f with
    | none =>
      match compareLoop fs (idx + 1) rest with
      | none => none
      | some (es, ws) => some (es, f :: ws)
    | some ds =>
      match colors[idx]?, markers[idx]? with
      | some _, some _ =>
        match compareLoop fs (idx + 1) rest with
        | none => none
        | some (es, ws) => some (mkEntry m ds :: es, ws)
      | _, _ => none

/-- Lines 234-240: the analytical curve, read from a dataset with only
`u_exact` coerced (no error recomputation, no infinity replacement). -/
def analyticCurve (ds : List Record) : List (ℚ × EVal) :=
  match seriesMaxQ (ds.map (fun r => r.t)) with
  | none => []
  | some ft =>
    (sortByKey (fun r => r.x) (ds.filter (fun r => decide (r.t = ft)))).map
      (fun r => (r.x, toNumeric r.u_exact))

/-- `compare_methods(csv_files, method_names)`.  The filesystem is the map
`fs` from a source name to its rows (`none` = the file does not exist).
After the loop, lines 233-240 unconditionally read `csv_files[0]` for the
analytical curve: if that first listed file does not exist,
`pd.read_csv` raises `FileNotFoundError` (modelled by `none`). -/
def compare_methods (fs : String → Option (List Record))
    (csv_files method_names : List String) : Option CompareReport :=
  match compareLoop fs 0 (csv_files.zip method_names) with
  | none => none
  | some (es, ws) =>
    match csv_files with
    | [] => some { entries := es, warnings := ws, analytical := none }
    | f0 :: _ =>
      match fs f0 with
      | none => none
      | some ds0 => some { entries := es, warnings := ws, analytical := some (analyticCurve ds0) }

/-- How a single-dataset invocation of `plot_results` ends: the early
`return` after printing "Error: file ... not found!", or a completed report. -/
inductive SingleOutcome where
  | notFound
  | completed (rep : Report)
deriving DecidableEq

/-- `plot_results(csv_file, method_name)` (lines 7-191).  A missing file
prints a message and returns normally (`notFound`); otherwise the dataset is
loaded and the report computed (`none` = an uncaught exception). -/
def plot_resultsRun (fs : String → Option (List Record)) (file : String) :
    Option SingleOutcome :=
  match fs file with
  | none => some SingleOutcome.notFound
  | some ds =>
    match plotResultsDs ds with
    | none => none
    | some rep => some (SingleOutcome.completed rep)

/-- The process exit status of a single-dataset invocation (lines 286-289):
the `__main__` block calls `plot_results` and falls off the end, so a normal
return exits with status `0`; only an uncaught exception yields a nonzero
status. -/
def mainSingleExit (fs : String → Option (List Record)) (file : String) : Nat :=
  match plot_resultsRun fs file with
  | none => 1
  | some _ => 0

/-- The number of `(source, label)` pairs whose source exists. -/
def existingCount (fs : String → Option (List Record))
    (csv_files method_names : List String) : Nat :=
  (csv_files.zip method_names).countP (fun p => (fs p.1).isSome)

end HeatSolver

namespace HeatSolver

theorem sub_nan_left (v : EVal) : EVal.sub EVal.nan v = EVal.nan := by
  cases v <;> rfl

theorem sub_nan_right (v : EVal) : EVal.sub v EVal.nan = EVal.nan := by
  cases v <;> rfl

theorem replaceInfNan_ne_pinf (v : EVal) : replaceInfNan v ≠ EVal.pinf := by
  cases v <;> simp [replaceInfNan]

theorem replaceInfNan_ne_ninf (v : EVal) : replaceInfNan v ≠ EVal.ninf := by
  cases v <;> simp [replaceInfNan]

theorem processRecord_error_col (r : Record) (e : Option Token) :
    processRecord { r with error_col := e } = processRecord r := rfl

theorem processDataset_error_col (ds : List Record) (f : Record → Option Token) :
    processDataset (ds.map (fun q => { q with error_col := f q })) = processDataset ds := by
  rw [processDataset, processDataset, List.map_map]
  rfl

/-- C3: for every row, the per-record error never comes from the stored
`error` column: it is recomputed as `|u_numeric - u_exact|` from the two
coerced value columns, it is never an infinity (unconditionally, for
arbitrary tokens), an infinite recomputed result — e.g. from an infinite
numeric token in either column — is normalised to NaN (invalid) rather than
propagated, both-finite rows get exactly `|a - b|`, and the whole
single-dataset pipeline is unchanged under any rewriting of the stored
`error` column. -/
theorem error_recomputed_ignores_stored (r : Record) (e : Option Token)
    (ds : List Record) (f : Record → Option Token) (a b : ℚ) :
    processRecord { r with error_col := e } = processRecord r
    ∧ (processRecord r).error
        = replaceInfNan (EVal.absE (EVal.sub (toNumeric r.u_numeric) (toNumeric r.u_exact)))
    ∧ (processRecord r).error ≠ EVal.pinf
    ∧ (processRecord r).error ≠ EVal.ninf
    ∧ (EVal.absE (EVal.sub (toNumeric r.u_numeric) (toNumeric r.u_exact)) = EVal.pinf →
        (processRecord r).error = EVal.nan)
    ∧ (toNumeric r.u_numeric = EVal.fin a → toNumeric r.u_exact = EVal.fin b →
        (processRecord r).error = EVal.fin |a - b|)
    ∧ plotResultsDs (ds.map (fun q => { q with error_col := f q })) = plotResultsDs ds := by
  refine ⟨processRecord_error_col r e, rfl, replaceInfNan_ne_pinf _, replaceInfNan_ne_ninf _,
    ?_, ?_, ?_⟩
  · intro h
    show replaceInfNan (EVal.absE (EVal.sub (toNumeric r.u_numeric) (toNumeric r.u_exact)))
      = EVal.nan
    rw [h]
    rfl
  · intro ha hb
    simp [processRecord, ha, hb, EVal.sub, EVal.absE, replaceInfNan]
  · rw [plotResultsDs, plotResultsDs, processDataset_error_col]

def rBad : Record :=
  { t := 1, x := 0, u_numeric := Token.bad "NaN", u_exact := Token.num 1, error_col := none }

def rGood : Record :=
  { t := 1, x := 1, u_numeric := Token.num 2, u_exact := Token.num 3,
    error_col := some (Token.num 7) }

/-- A row whose `u_numeric` cell holds an infinite numeric token, alongside a
stored (stale) `error` column. -/
def rInf : Record :=
  { t := 1, x := 2, u_numeric := Token.infTok true, u_exact := Token.num 1,
    error_col := some (Token.num 7) }

theorem error_recomputed_ignores_stored_witness :
    (processRecord { rInf with error_col := none } = processRecord rInf
      ∧ (processRecord rInf).error
          = replaceInfNan (EVal.absE (EVal.sub (toNumeric rInf.u_numeric)
              (toNumeric rInf.u_exact)))
      ∧ (processRecord rInf).error ≠ EVal.pinf
      ∧ (processRecord rInf).error ≠ EVal.ninf
      ∧ (EVal.absE (EVal.sub (toNumeric rInf.u_numeric) (toNumeric rInf.u_exact))
            = EVal.pinf →
          (processRecord rInf).error = EVal.nan)
      ∧ (toNumeric rInf.u_numeric = EVal.fin 0 → toNumeric rInf.u_exact = EVal.fin 0 →
          (processRecord rInf).error = EVal.fin |(0 : ℚ) - 0|)
      ∧ plotResultsDs ([rInf].map (fun q => { q with error_col := none }))
          = plotResultsDs [rInf])
    ∧ (processRecord rInf).error = EVal.nan
    ∧ (processRecord rGood).error = EVal.fin |(2 : ℚ) - 3| :=
  ⟨error_recomputed_ignores_stored rInf none [rInf] (fun _ => none) 0 0,
    (error_recomputed_ignores_stored rInf none [rInf] (fun _ => none) 0 0).2.2.2.2.1 rfl,
    (error_recomputed_ignores_stored rGood none [rGood] (fun _ => none) 2 3).2.2.2.2.2.1
      rfl rfl⟩

/-- C7: the log-axis floor transform with `epsilon = 1e-20` returns any value
at or above the floor unchanged, and maps exactly `0` to `epsilon`. -/
theorem log_floor_identity (v : ℚ) (h : epsilon ≤ v) :
    logFloor v = v ∧ logFloor 0 = epsilon := by
  constructor
  · exact max_eq_left h
  · exact max_eq_right (by norm_num [epsilon])

theorem log_floor_identity_witness :
    logFloor 1 = 1 ∧ logFloor 0 = epsilon :=
  log_floor_identity 1 (by norm_num [epsilon])

end HeatSolver

namespace HeatSolver

theorem length_insortKey {α : Type} (key : α → ℚ) (a : α) (l : List α) :
    (insortKey key a l).length = l.length + 1 := by
  induction l with
  | nil => rfl
  | cons b bs ih =>
    rw [insortKey]
    split
    · simp
    · simp [ih]

theorem length_sortByKey {α : Type} (key : α → ℚ) (l : List α) :
    (sortByKey key l).length = l.length := by
  induction l with
  | nil => rfl
  | cons b bs ih => simp [sortByKey, List.foldr_cons, length_insortKey]
                    simpa [sortByKey] using ih

theorem mem_insortKey {α : Type} (key : α → ℚ) (a x : α) (l : List α) :
    x ∈ insortKey key a l ↔ x = a ∨ x ∈ l := by
  induction l with
  | nil => simp [insortKey]
  | cons b bs ih =>
    rw [insortKey]
    split
    · simp
    · simp [ih]
      tauto

theorem mem_sortByKey {α : Type} (key : α → ℚ) (x : α) (l : List α) :
    x ∈ sortByKey key l ↔ x ∈ l := by
  induction l with
  | nil => simp [sortByKey]
  | cons b bs ih =>
    simp only [sortByKey, List.foldr_cons] at *
    rw [mem_insortKey, ih]
    simp

theorem mem_insortU (a x : ℚ) (l : List ℚ) :
    x ∈ insortU a l ↔ x = a ∨ x ∈ l := by
  induction l with
  | nil => simp [insortU]
  | cons b bs ih =>
    rw [insortU]
    split
    · simp
    · split
      · next h1 h2 => subst h2; simp
      · simp [ih]; tauto

theorem mem_sortUniq (x : ℚ) (l : List ℚ) : x ∈ sortUniq l ↔ x ∈ l := by
  induction l with
  | nil => simp [sortUniq]
  | cons b bs ih =>
    simp only [sortUniq, List.foldr_cons] at *
    rw [mem_insortU, ih]
    simp

theorem validErrors_append (l₁ l₂ : List PRecord) :
    validErrors (l₁ ++ l₂) = validErrors l₁ ++ validErrors l₂ := by
  simp [validErrors, List.filterMap_append]

theorem validErrors_cons_nan (p : PRecord) (l : List PRecord) (h : p.error = EVal.nan) :
    validErrors (p :: l) = validErrors l := by
  simp [validErrors, List.filterMap_cons, h]

theorem mem_validErrors (v : ℚ) (snap : List PRecord) :
    v ∈ validErrors snap ↔ ∃ p ∈ snap, p.error = EVal.fin v := by
  simp only [validErrors, List.mem_filterMap]
  constructor
  · rintro ⟨p, hp, he⟩
    refine ⟨p, hp, ?_⟩
    cases h : p.error <;> simp_all
  · rintro ⟨p, hp, he⟩
    exact ⟨p, hp, by simp [he]⟩

end HeatSolver

namespace HeatSolver

theorem map_t_processDataset (ds : List Record) :
    (processDataset ds).map (fun r => r.t) = ds.map (fun r => r.t) := by
  rw [processDataset, List.map_map]
  rfl

theorem map_x_processDataset (ds : List Record) :
    (processDataset ds).map (fun r => r.x) = ds.map (fun r => r.x) := by
  rw [processDataset, List.map_map]
  rfl

theorem countP_t_processDataset (ds : List Record) (tv : ℚ) :
    (processDataset ds).countP (fun r => decide (r.t = tv))
      = ds.countP (fun r => decide (r.t = tv)) := by
  rw [processDataset, List.countP_map]
  rfl

theorem length_heatRow (pds : List PRecord) (tv : ℚ) :
    (heatRow pds tv).length = pds.countP (fun r => decide (r.t = tv)) := by
  rw [heatRow, List.length_map, length_sortByKey, ← List.countP_eq_length_filter]

theorem buildHeatmap_isSome (pds : List PRecord) :
    (buildHeatmap pds).isSome
      = ((heatTSub pds).map (heatRow pds)).all
          (fun row => row.length == (heatXVals pds).length) := by
  unfold buildHeatmap
  by_cases h : ((heatTSub pds).map (heatRow pds)).all
      (fun row => row.length == (heatXVals pds).length)
  · simp [h]
  · simp [h]

theorem all_map_poly {α β : Type} (l : List α) (f : α → β) (p : β → Bool) :
    (l.map f).all p = l.all (p ∘ f) := by
  induction l with
  | nil => rfl
  | cons a as ih => simp only [List.map_cons, List.all_cons, ih, Function.comp]

theorem plotResultsDs_isSome_eq (ds : List Record) :
    (plotResultsDs ds).isSome = pipelineShapeOk (ds.map (fun r => (r.t, r.x))) := by
  have hts : (ds.map (fun r => (r.t, r.x))).map Prod.fst
      = (processDataset ds).map (fun r => r.t) := by
    rw [List.map_map, map_t_processDataset]
    rfl
  have hxs : (ds.map (fun r => (r.t, r.x))).map Prod.snd
      = (processDataset ds).map (fun r => r.x) := by
    rw [List.map_map, map_x_processDataset]
    rfl
  have hcount : ∀ tv : ℚ, (ds.map (fun r => (r.t, r.x))).countP (fun p => decide (p.1 = tv))
      = (processDataset ds).countP (fun r => decide (r.t = tv)) := by
    intro tv
    rw [List.countP_map, countP_t_processDataset]
    rfl
  rw [plotResultsDs, reportOfP, pipelineShapeOk, hts, hxs]
  cases hgl : (sortUniq ((processDataset ds).map fun r => r.t)).getLast? with
  | none => simp
  | some ft =>
    have hpred : (fun tv : ℚ =>
          (ds.map (fun r => (r.t, r.x))).countP (fun p => decide (p.1 = tv))
            == (sortUniq ((processDataset ds).map fun r => r.x)).length)
        = (fun tv : ℚ => (heatRow (processDataset ds) tv).length
            == (heatXVals (processDataset ds)).length) := by
      funext tv
      rw [hcount tv, length_heatRow]
      rfl
    dsimp only
    rw [hpred]
    have hall : (takeEvery (max 1 ((sortUniq ((processDataset ds).map fun r => r.t)).length / 50))
          (sortUniq ((processDataset ds).map fun r => r.t))).all
            (fun tv => (heatRow (processDataset ds) tv).length
              == (heatXVals (processDataset ds)).length)
        = (buildHeatmap (processDataset ds)).isSome := by
      rw [buildHeatmap_isSome, all_map_poly]
      rfl
    rw [hall]
    cases hbh : buildHeatmap (processDataset ds) with
    | none => simp
    | some hm => simp

end HeatSolver

namespace HeatSolver

/-- C1: a row whose `u_numeric` or `u_exact` holds a non-numeric token gets a
NaN (invalid) error, contributes nothing to the valid-error list and hence
leaves the L2/Linf/mean aggregates unchanged, and whether the single-dataset
pipeline completes without an exception depends only on the `(t, x)` shape of
the rows — never on the coercion, which is total. -/
theorem coercion_safety (pre post : List Record) (r : Record)
    (a b : List PRecord)
    (hbad : (∃ s, r.u_numeric = Token.bad s) ∨ (∃ s, r.u_exact = Token.bad s)) :
    (processRecord r).error = EVal.nan
    ∧ validErrors (a ++ processRecord r :: b) = validErrors (a ++ b)
    ∧ singleStats (validErrors (a ++ processRecord r :: b))
        = singleStats (validErrors (a ++ b))
    ∧ meanStat (validErrors (a ++ processRecord r :: b))
        = meanStat (validErrors (a ++ b))
    ∧ (plotResultsDs (pre ++ r :: post)).isSome
        = pipelineShapeOk ((pre ++ r :: post).map (fun q => (q.t, q.x))) := by
  have herr : (processRecord r).error = EVal.nan := by
    rcases hbad with ⟨s, hs⟩ | ⟨s, hs⟩
    · simp only [processRecord]
      rw [hs, show toNumeric (Token.bad s) = EVal.nan from rfl, sub_nan_left]
      rfl
    · simp only [processRecord]
      rw [hs, show toNumeric (Token.bad s) = EVal.nan from rfl, sub_nan_right]
      rfl
  have hexc : validErrors (a ++ processRecord r :: b) = validErrors (a ++ b) := by
    rw [validErrors_append, validErrors_cons_nan _ _ herr, ← validErrors_append]
  exact ⟨herr, hexc, by rw [hexc], by rw [hexc], plotResultsDs_isSome_eq _⟩

theorem coercion_safety_witness :
    (processRecord rBad).error = EVal.nan
    ∧ validErrors ([] ++ processRecord rBad :: [processRecord rGood])
        = validErrors ([] ++ [processRecord rGood])
    ∧ singleStats (validErrors ([] ++ processRecord rBad :: [processRecord rGood]))
        = singleStats (validErrors ([] ++ [processRecord rGood]))
    ∧ meanStat (validErrors ([] ++ processRecord rBad :: [processRecord rGood]))
        = meanStat (validErrors ([] ++ [processRecord rGood]))
    ∧ (plotResultsDs ([] ++ rBad :: [rGood])).isSome
        = pipelineShapeOk (([] ++ rBad :: [rGood]).map (fun q : Record => (q.t, q.x))) :=
  coercion_safety [] [rGood] rBad [] [processRecord rGood] (Or.inl ⟨"NaN", rfl⟩)

theorem plotResultsDs_some_elim (ds : List Record) (rep : Report)
    (h : plotResultsDs ds = some rep) :
    ∃ ft hm, (sortUniq ((processDataset ds).map (fun r => r.t))).getLast? = some ft
      ∧ buildHeatmap (processDataset ds) = some hm
      ∧ rep = mkReport (processDataset ds) ft hm := by
  rw [plotResultsDs, reportOfP] at h
  cases hgl : (sortUniq ((processDataset ds).map fun r => r.t)).getLast? with
  | none => simp [hgl] at h
  | some ft =>
    simp only [hgl] at h
    cases hbh : buildHeatmap (processDataset ds) with
    | none => simp [hbh] at h
    | some hm =>
      simp only [hbh, Option.some.injEq] at h
      exact ⟨ft, hm, rfl, rfl, h.symm⟩

/-- C2: when the final-time snapshot has no valid (finite) error value, the
reported L2 and Linf are NaN, the mean is NaN, and the error panel takes the
explicit "No valid error data" placeholder path; the summary computation is
guarded and total, so no exception arises there. -/
theorem empty_data_degradation (ds : List Record) (rep : Report)
    (hrep : plotResultsDs ds = some rep) (hempty : rep.err_valid = []) :
    rep.stats = { l2sq := EVal.nan, linf := EVal.nan }
    ∧ rep.mean_err = EVal.nan
    ∧ rep.panel = ErrPanel.noValidData := by
  obtain ⟨ft, hm, hgl, hbh, hrepeq⟩ := plotResultsDs_some_elim ds rep hrep
  subst hrepeq
  have h : validErrors (finalSnapshot (processDataset ds) ft) = [] := hempty
  refine ⟨?_, ?_, ?_⟩ <;> simp [mkReport, singleStats, meanStat, errPanel, h]

def dsAllBad : List Record :=
  [{ t := 0, x := 0, u_numeric := Token.bad "level", u_exact := Token.num 0,
     error_col := none }]

def repAllBad : Report :=
  { final_t := 0
    err_valid := []
    stats := { l2sq := EVal.nan, linf := EVal.nan }
    mean_err := EVal.nan
    panel := ErrPanel.noValidData
    heatmap := { x_vals := [0], t_subset := [0], rows := [[EVal.fin 0]] } }

theorem plotResultsDs_dsAllBad : plotResultsDs dsAllBad = some repAllBad := by
  norm_num [plotResultsDs, reportOfP, processDataset, processRecord, toNumeric,
      replaceInfNan, EVal.sub, EVal.absE, fillZero, sortUniq, insortU, seriesMaxQ,
      seriesMaxE, meanQ, validErrors, singleStats, meanStat, errPanel, logFloor, epsilon,
      buildHeatmap, heatTVals, heatXVals, heatStep, heatTSub, takeEvery, takeEveryAux,
      heatRow, sortByKey, insortKey, finalSnapshot, mkReport, dsAllBad, repAllBad, List.getLast?]

theorem empty_data_degradation_witness :
    (plotResultsDs dsAllBad = some repAllBad ∧ repAllBad.err_valid = [])
    ∧ repAllBad.stats = { l2sq := EVal.nan, linf := EVal.nan }
    ∧ repAllBad.mean_err = EVal.nan
    ∧ repAllBad.panel = ErrPanel.noValidData :=
  ⟨⟨plotResultsDs_dsAllBad, rfl⟩,
    empty_data_degradation dsAllBad repAllBad plotResultsDs_dsAllBad rfl⟩

end HeatSolver

namespace HeatSolver

theorem meanQ_zero (l : List ℚ) (h : ∀ v ∈ l, v = 0) : meanQ l = 0 := by
  rw [meanQ, List.sum_eq_zero h, zero_div]

theorem foldl_max_zero (l : List ℚ) (a : ℚ) (ha : a = 0) (h : ∀ v ∈ l, v = 0) :
    l.foldl max a = 0 := by
  induction l generalizing a with
  | nil => exact ha
  | cons b bs ih =>
    rw [List.foldl_cons]
    exact ih _ (by rw [ha, h b (by simp), max_self]) (fun v hv => h v (by simp [hv]))

theorem seriesMaxE_zero (l : List ℚ) (hne : 0 < l.length) (h : ∀ v ∈ l, v = 0) :
    seriesMaxE l = EVal.fin 0 := by
  cases l with
  | nil => simp at hne
  | cons a rest =>
    rw [seriesMaxE, seriesMaxQ]
    rw [foldl_max_zero rest a (h a (by simp)) (fun v hv => h v (by simp [hv]))]

/-- C6: when every row's coerced `u_numeric` equals its coerced `u_exact`, the
final-time summary is exactly zero — `l2sq = linf = mean = 0`, so the reported
`l2 = sqrt(0) = 0` — while the epsilon floor shows up only in the plotted
panel values, each of which equals `epsilon`. -/
theorem exact_zero_error_summary (ds : List Record) (rep : Report)
    (hrep : plotResultsDs ds = some rep)
    (hexact : ∀ r ∈ ds, ∃ q, toNumeric r.u_numeric = EVal.fin q
        ∧ toNumeric r.u_exact = EVal.fin q) :
    rep.stats = { l2sq := EVal.fin 0, linf := EVal.fin 0 }
    ∧ rep.mean_err = EVal.fin 0
    ∧ 0 < rep.err_valid.length
    ∧ rep.panel = ErrPanel.plotted (List.replicate rep.err_valid.length epsilon) := by
  obtain ⟨ft, hm, hgl, hbh, hrepeq⟩ := plotResultsDs_some_elim ds rep hrep
  subst hrepeq
  have herr0 : ∀ p ∈ processDataset ds, p.error = EVal.fin 0 := by
    intro p hp
    rw [processDataset] at hp
    obtain ⟨r, hr, rfl⟩ := List.mem_map.1 hp
    obtain ⟨q, hq1, hq2⟩ := hexact r hr
    simp only [processRecord]
    rw [hq1, hq2]
    show replaceInfNan (EVal.absE (EVal.fin (q - q))) = EVal.fin 0
    simp [EVal.absE, replaceInfNan]
  have hsnap : ∀ p ∈ finalSnapshot (processDataset ds) ft, p.error = EVal.fin 0 := by
    intro p hp
    rw [finalSnapshot, mem_sortByKey] at hp
    exact herr0 p (List.mem_of_mem_filter hp)
  have hallz : ∀ v ∈ validErrors (finalSnapshot (processDataset ds) ft), v = 0 := by
    intro v hv
    obtain ⟨p, hp, he⟩ := (mem_validErrors v _).1 hv
    rw [hsnap p hp] at he
    exact (EVal.fin.inj he.symm)
  have hft : ft ∈ (processDataset ds).map (fun r => r.t) :=
    (mem_sortUniq _ _).1 (List.mem_of_mem_getLast? hgl)
  obtain ⟨p0, hp0, hp0t⟩ := List.mem_map.1 hft
  have hp0snap : p0 ∈ finalSnapshot (processDataset ds) ft := by
    rw [finalSnapshot, mem_sortByKey, List.mem_filter]
    exact ⟨hp0, by simp [hp0t]⟩
  have h0mem : (0 : ℚ) ∈ validErrors (finalSnapshot (processDataset ds) ft) :=
    (mem_validErrors 0 _).2 ⟨p0, hp0snap, hsnap p0 hp0snap⟩
  have hlen : 0 < (validErrors (finalSnapshot (processDataset ds) ft)).length :=
    List.length_pos.2 (List.ne_nil_of_mem h0mem)
  refine ⟨?_, ?_, hlen, ?_⟩
  · show singleStats (validErrors (finalSnapshot (processDataset ds) ft)) = _
    rw [singleStats, if_pos hlen]
    have h1 : meanQ ((validErrors (finalSnapshot (processDataset ds) ft)).map
        (fun v => v * v)) = 0 := by
      apply meanQ_zero
      intro v hv
      obtain ⟨w, hw, rfl⟩ := List.mem_map.1 hv
      rw [hallz w hw, mul_zero]
    rw [h1, seriesMaxE_zero _ hlen hallz]
  · show meanStat (validErrors (finalSnapshot (processDataset ds) ft)) = _
    rw [meanStat, if_pos hlen, meanQ_zero _ hallz]
  · show errPanel (validErrors (finalSnapshot (processDataset ds) ft)) = _
    rw [errPanel, if_pos hlen]
    have : (validErrors (finalSnapshot (processDataset ds) ft)).map logFloor
        = List.replicate (validErrors (finalSnapshot (processDataset ds) ft)).length
            epsilon := by
      apply List.eq_replicate_iff.2
      refine ⟨by rw [List.length_map], ?_⟩
      intro b hb
      obtain ⟨w, hw, rfl⟩ := List.mem_map.1 hb
      rw [hallz w hw, logFloor]
      exact max_eq_right (by norm_num [epsilon])
    rw [this]
    rfl

def ds4 : List Record :=
  [{ t := 0, x := 0, u_numeric := Token.num 1, u_exact := Token.num 1, error_col := none },
   { t := 0, x := 1, u_numeric := Token.num 1, u_exact := Token.num 1, error_col := none },
   { t := 1, x := 0, u_numeric := Token.num 1, u_exact := Token.num 1, error_col := none },
   { t := 1, x := 1, u_numeric := Token.num 1, u_exact := Token.num 1, error_col := none }]

def rep4 : Report :=
  { final_t := 1
    err_valid := [0, 0]
    stats := { l2sq := EVal.fin 0, linf := EVal.fin 0 }
    mean_err := EVal.fin 0
    panel := ErrPanel.plotted [epsilon, epsilon]
    heatmap := { x_vals := [0, 1], t_subset := [0, 1],
                 rows := [[EVal.fin 1, EVal.fin 1], [EVal.fin 1, EVal.fin 1]] } }

theorem plotResultsDs_ds4 : plotResultsDs ds4 = some rep4 := by
  norm_num [plotResultsDs, reportOfP, processDataset, processRecord, toNumeric,
      replaceInfNan, EVal.sub, EVal.absE, fillZero, sortUniq, insortU, seriesMaxQ,
      seriesMaxE, meanQ, singleStats, meanStat, errPanel, logFloor, epsilon,
      buildHeatmap, heatTVals, heatXVals, heatStep, heatTSub, takeEvery, takeEveryAux,
      heatRow, sortByKey, insortKey, finalSnapshot, mkReport, ds4, rep4, List.getLast?]
  simp only [validErrors, List.filterMap_cons, List.filterMap_nil]
  norm_num [meanQ, seriesMaxE, seriesMaxQ, logFloor, epsilon]

theorem exact_zero_error_summary_witness :
    (plotResultsDs ds4 = some rep4)
    ∧ rep4.stats = { l2sq := EVal.fin 0, linf := EVal.fin 0 }
    ∧ rep4.mean_err = EVal.fin 0
    ∧ 0 < rep4.err_valid.length
    ∧ rep4.panel = ErrPanel.plotted (List.replicate rep4.err_valid.length epsilon) :=
  ⟨plotResultsDs_ds4,
    exact_zero_error_summary ds4 rep4 plotResultsDs_ds4
      (by intro r hr; fin_cases hr <;> exact ⟨1, rfl, rfl⟩)⟩

end HeatSolver

namespace HeatSolver

theorem takeEveryAux_length (k : Nat) (hk : 0 < k) :
    ∀ (l : List ℚ) (c : Nat), (takeEveryAux k c l).length = (l.length - c + k - 1) / k := by
  intro l
  induction l with
  | nil =>
    intro c
    simp only [takeEveryAux, List.length_nil]
    symm
    apply Nat.div_eq_of_lt
    omega
  | cons a rest ih =>
    intro c
    cases c with
    | zero =>
      rw [takeEveryAux]
      simp only [List.length_cons]
      rw [ih (k - 1)]
      rcases le_or_lt (k - 1) rest.length with h | h
      · have e1 : rest.length - (k - 1) + k - 1 = rest.length := by omega
        have e2 : rest.length + 1 - 0 + k - 1 = rest.length + k := by omega
        rw [e1, e2, Nat.add_div_right _ hk]
      · have e1 : rest.length - (k - 1) = 0 := by omega
        have e2 : (0 + k - 1) / k = 0 := Nat.div_eq_of_lt (by omega)
        have e3 : rest.length + 1 - 0 + k - 1 = rest.length + k := by omega
        have e4 : rest.length / k = 0 := Nat.div_eq_of_lt (by omega)
        rw [e1, e2, e3, Nat.add_div_right _ hk, e4]
    | succ c' =>
      rw [takeEveryAux, ih c']
      simp only [List.length_cons]
      congr 1
      omega

theorem takeEvery_length (k : Nat) (hk : 0 < k) (l : List ℚ) :
    (takeEvery k l).length = (l.length + k - 1) / k := by
  rw [takeEvery, takeEveryAux_length k hk l 0, Nat.sub_zero]

theorem takeEvery_head? (k : Nat) (l : List ℚ) : (takeEvery k l).head? = l.head? := by
  cases l <;> rfl

theorem takeEveryAux_one (l : List ℚ) : takeEveryAux 1 0 l = l := by
  induction l with
  | nil => rfl
  | cons a rest ih => simp [takeEveryAux, ih]

theorem takeEvery_one (l : List ℚ) : takeEvery 1 l = l := takeEveryAux_one l

theorem heat_rows_le_99 (n : Nat) (hn : 0 < n) :
    (n + max 1 (n / 50) - 1) / max 1 (n / 50) ≤ 99 := by
  obtain ⟨k, hk⟩ : ∃ k, k = max 1 (n / 50) := ⟨_, rfl⟩
  rw [← hk]
  have hk1 : 1 ≤ k := hk ▸ le_max_left 1 (n / 50)
  have hkd : n / 50 ≤ k := hk ▸ le_max_right 1 (n / 50)
  have hdm := Nat.div_add_mod n 50
  have hmod : n % 50 < 50 := Nat.mod_lt _ (by norm_num)
  have hmul : 50 * (n / 50) ≤ 50 * k := Nat.mul_le_mul_left _ hkd
  have hn99 : n ≤ 99 * k := by omega
  have hlt : (n + k - 1) / k < 100 :=
    (Nat.div_lt_iff_lt_mul (by omega : 0 < k)).2 (by omega)
  exact Nat.lt_succ_iff.mp hlt

theorem sortUniq_cons (a : ℚ) (l : List ℚ) : sortUniq (a :: l) = insortU a (sortUniq l) := rfl

theorem insortU_sorted (a : ℚ) (l : List ℚ) (h : List.Sorted (· < ·) l) :
    List.Sorted (· < ·) (insortU a l) := by
  induction l with
  | nil => simp [insortU]
  | cons b bs ih =>
    rw [insortU]
    rcases List.sorted_cons.1 h with ⟨hb, hbs⟩
    split
    · next hab =>
      rw [List.sorted_cons]
      refine ⟨?_, h⟩
      intro y hy
      rcases List.mem_cons.1 hy with rfl | hy
      · exact hab
      · exact hab.trans (hb y hy)
    · split
      · exact h
      · next hab1 hab2 =>
        rw [List.sorted_cons]
        refine ⟨?_, ih hbs⟩
        intro y hy
        rcases (mem_insortU a y bs).1 hy with rfl | hy
        · exact lt_of_le_of_ne (not_lt.1 hab1) (fun h => hab2 h.symm)
        · exact hb y hy

theorem sortUniq_sorted (l : List ℚ) : List.Sorted (· < ·) (sortUniq l) := by
  induction l with
  | nil => simp [sortUniq]
  | cons a as ih => exact insortU_sorted a _ ih

theorem sortUniq_nodup (l : List ℚ) : (sortUniq l).Nodup :=
  (sortUniq_sorted l).imp ne_of_lt

theorem sortUniq_length_dedup (l : List ℚ) : (sortUniq l).length = l.dedup.length := by
  have hperm : List.Perm (sortUniq l) l.dedup := by
    refine (List.perm_ext_iff_of_nodup (sortUniq_nodup l) l.nodup_dedup).2 ?_
    intro x
    rw [mem_sortUniq, List.mem_dedup]
  exact hperm.length_eq

theorem head?_insortU (a : ℚ) (l : List ℚ) :
    (insortU a l).head?
      = some (match l.head? with | none => a | some b => min a b) := by
  cases l with
  | nil => rfl
  | cons b bs =>
    rw [insortU]
    rcases lt_trichotomy a b with h | h | h
    · rw [if_pos h]
      simp [min_eq_left h.le]
    · subst h
      rw [if_neg (lt_irrefl a), if_pos rfl]
      simp
    · rw [if_neg (not_lt.2 h.le), if_neg h.ne']
      simp [min_eq_right h.le]

theorem foldl_min_eq (l : List ℚ) : ∀ a : ℚ,
    l.foldl min a = (match seriesMinQ l with | none => a | some m => min a m) := by
  induction l with
  | nil => intro a; rfl
  | cons c cs ih =>
    intro a
    rw [List.foldl_cons, ih (min a c), seriesMinQ, ih c]
    cases hm : seriesMinQ cs with
    | none => simp
    | some m => simp [min_assoc]

theorem sortUniq_head?_min (l : List ℚ) : (sortUniq l).head? = seriesMinQ l := by
  induction l with
  | nil => rfl
  | cons a as ih =>
    rw [sortUniq_cons, head?_insortU, ih, seriesMinQ, foldl_min_eq as a]

end HeatSolver

namespace HeatSolver

theorem sortUniq_eq_self (l : List ℚ) (h : List.Sorted (· < ·) l) : sortUniq l = l := by
  induction l with
  | nil => rfl
  | cons a as ih =>
    rw [sortUniq_cons, ih (List.sorted_cons.1 h).2]
    cases as with
    | nil => rfl
    | cons b bs =>
      rw [insortU, if_pos ((List.sorted_cons.1 h).1 b (by simp))]

/-- A dataset with 51 distinct time values (and one position). -/
def ds51 : List Record :=
  (List.range 51).map (fun n =>
    { t := Nat.cast n, x := 0, u_numeric := Token.num 0, u_exact := Token.num 0,
      error_col := none })

/-- C4 counterexample: with 51 unique time values the stride is
`max(1, 51 // 50) = 1`, so the heatmap matrix has 51 rows — the claimed cap of
50 rows is exceeded. -/
theorem heatmap_row_cap_counterexample :
    50 < (heatTSub (processDataset ds51)).length := by
  have hmap : (processDataset ds51).map (fun r => r.t)
      = (List.range 51).map (Nat.cast : ℕ → ℚ) := by
    rw [map_t_processDataset, ds51, List.map_map]
    rfl
  have hsorted : List.Sorted (· < ·) ((List.range 51).map (Nat.cast : ℕ → ℚ)) := by
    refine List.Pairwise.map (R := (· < ·)) _ ?_ (List.pairwise_lt_range 51)
    intro a b hab
    exact_mod_cast hab
  rw [heatTSub, heatStep, heatTVals, hmap, sortUniq_eq_self _ hsorted, List.length_map,
    List.length_range]
  have h1 : max 1 (51 / 50) = 1 := by norm_num
  rw [h1, takeEvery_one, List.length_map, List.length_range]
  norm_num

/-- C4 (amended): for a nonempty dataset the heatmap has exactly
`ceil(num_unique_times / stride)` rows with `stride = max(1, num_times // 50)`,
the row count is bounded by `99` (not by the target cap `50`, which is
exceeded whenever `50 < num_times < 100` and more generally when the stride
does not divide evenly), the column count equals the number of distinct
position values, and row 0 corresponds to the minimum time value. -/
theorem heatmap_alignment_amended (ds : List Record) (hne : ds ≠ []) :
    (heatTSub (processDataset ds)).length
      = ((heatTVals (processDataset ds)).length + heatStep (processDataset ds) - 1)
          / heatStep (processDataset ds)
    ∧ (heatTSub (processDataset ds)).length ≤ 99
    ∧ (heatXVals (processDataset ds)).length
        = ((processDataset ds).map (fun r => r.x)).dedup.length
    ∧ (heatTSub (processDataset ds)).head?
        = seriesMinQ ((processDataset ds).map (fun r => r.t)) := by
  have hk : 0 < heatStep (processDataset ds) := le_max_left 1 _
  have hlen : (heatTSub (processDataset ds)).length
      = ((heatTVals (processDataset ds)).length + heatStep (processDataset ds) - 1)
          / heatStep (processDataset ds) :=
    takeEvery_length (heatStep (processDataset ds)) hk (heatTVals (processDataset ds))
  have hpos : 0 < (heatTVals (processDataset ds)).length := by
    cases ds with
    | nil => exact absurd rfl hne
    | cons r rs =>
      have hmem : (processRecord r).t ∈ (processDataset (r :: rs)).map (fun p => p.t) :=
        List.mem_map_of_mem _ (by simp [processDataset])
      exact List.length_pos.2 (List.ne_nil_of_mem ((mem_sortUniq _ _).2 hmem))
  refine ⟨hlen, ?_, sortUniq_length_dedup _, ?_⟩
  · rw [hlen]
    exact heat_rows_le_99 _ hpos
  · rw [heatTSub, takeEvery_head?, heatTVals, sortUniq_head?_min]

theorem heatmap_alignment_amended_witness :
    (heatTSub (processDataset ds4)).length
      = ((heatTVals (processDataset ds4)).length + heatStep (processDataset ds4) - 1)
          / heatStep (processDataset ds4)
    ∧ (heatTSub (processDataset ds4)).length ≤ 99
    ∧ (heatXVals (processDataset ds4)).length
        = ((processDataset ds4).map (fun r => r.x)).dedup.length
    ∧ (heatTSub (processDataset ds4)).head?
        = seriesMinQ ((processDataset ds4).map (fun r => r.t)) :=
  heatmap_alignment_amended ds4 (by simp [ds4])

end HeatSolver

namespace HeatSolver

theorem compareLoop_cons_missing (fs : String → Option (List Record)) (idx : Nat)
    (f m : String) (rest : List (String × String)) (h : fs f = none) :
    compareLoop fs idx ((f, m) :: rest)
      = (compareLoop fs (idx + 1) rest).map (fun p => (p.1, f :: p.2)) := by
  rw [compareLoop, h]
  cases compareLoop fs (idx + 1) rest with
  | none => rfl
  | some p => cases p; rfl

theorem compareLoop_cons_found (fs : String → Option (List Record)) (idx : Nat)
    (f m : String) (rest : List (String × String)) (ds : List Record)
    (h : fs f = some ds) (hidx : idx < 4) :
    compareLoop fs idx ((f, m) :: rest)
      = (compareLoop fs (idx + 1) rest).map (fun p => (mkEntry m ds :: p.1, p.2)) := by
  obtain ⟨c, hc⟩ : ∃ c, colors[idx]? = some c := by
    interval_cases idx <;> exact ⟨_, rfl⟩
  obtain ⟨mk, hmk⟩ : ∃ mk, markers[idx]? = some mk := by
    interval_cases idx <;> exact ⟨_, rfl⟩
  rw [compareLoop, h, hc, hmk]
  cases compareLoop fs (idx + 1) rest with
  | none => rfl
  | some p => cases p; rfl

/-- C5: in comparison mode a missing source is skipped with a warning and the
comparison continues: with three sources of which only the second is missing,
the report holds exactly the entries of the first and third methods in input
order, the warning names the second source, and the invocation returns a
report (does not abort). -/
theorem comparison_skip (fs : String → Option (List Record))
    (f1 f2 f3 m1 m2 m3 : String) (d1 d3 : List Record)
    (h1 : fs f1 = some d1) (h2 : fs f2 = none) (h3 : fs f3 = some d3) :
    compare_methods fs [f1, f2, f3] [m1, m2, m3]
      = some { entries := [mkEntry m1 d1, mkEntry m3 d3]
               warnings := [f2]
               analytical := some (analyticCurve d1) } := by
  have hz : [f1, f2, f3].zip [m1, m2, m3] = [(f1, m1), (f2, m2), (f3, m3)] := rfl
  have hloop : compareLoop fs 0 [(f1, m1), (f2, m2), (f3, m3)]
      = some ([mkEntry m1 d1, mkEntry m3 d3], [f2]) := by
    rw [compareLoop_cons_found fs 0 f1 m1 _ d1 h1 (by norm_num),
      compareLoop_cons_missing fs 1 f2 m2 _ h2,
      compareLoop_cons_found fs 2 f3 m3 _ d3 h3 (by norm_num)]
    rfl
  rw [compare_methods, hz, hloop]
  dsimp only
  rw [h1]

def dsA : List Record :=
  [{ t := 0, x := 0, u_numeric := Token.num 1, u_exact := Token.num 1, error_col := none }]

def dsC : List Record :=
  [{ t := 0, x := 0, u_numeric := Token.num 2, u_exact := Token.num 2, error_col := none }]

def fsSkip : String → Option (List Record) := fun s =>
  if s = "a.csv" then some dsA else if s = "c.csv" then some dsC else none

theorem comparison_skip_witness :
    compare_methods fsSkip ["a.csv", "b.csv", "c.csv"] ["A", "B", "C"]
      = some { entries := [mkEntry "A" dsA, mkEntry "C" dsC]
               warnings := ["b.csv"]
               analytical := some (analyticCurve dsA) } :=
  comparison_skip fsSkip "a.csv" "b.csv" "c.csv" "A" "B" "C" dsA dsC rfl rfl rfl

end HeatSolver

namespace HeatSolver

def recB : Record :=
  { t := 0, x := 0, u_numeric := Token.num 0, u_exact := Token.num 0, error_col := none }

/-- A filesystem where the first listed source is missing but the second
exists. -/
def fsFirstMissing : String → Option (List Record) := fun s =>
  if s = "b.csv" then some [recB] else none

/-- C8: evaluating `compare_methods` when the first listed source is missing
but the second loads fine.  The loop duly skips the first source with a
warning, but lines 233-240 then read `csv_files[0]` unconditionally for the
analytical curve, so `pd.read_csv` raises `FileNotFoundError` and the
comparison aborts — the curve is *not* drawn from the first successfully
loaded dataset and the comparison does not complete. -/
theorem analytic_curve_first_missing_crash :
    compare_methods fsFirstMissing ["a.csv", "b.csv"] ["A", "B"] = none := by
  have h1 : fsFirstMissing "a.csv" = none := rfl
  have h2 : fsFirstMissing "b.csv" = some [recB] := rfl
  have hloop : compareLoop fsFirstMissing 0 [("a.csv", "A"), ("b.csv", "B")]
      = some ([mkEntry "B" [recB]], ["a.csv"]) := by
    rw [compareLoop_cons_missing fsFirstMissing 0 "a.csv" "A" _ h1,
      compareLoop_cons_found fsFirstMissing 1 "b.csv" "B" _ [recB] h2 (by norm_num)]
    rfl
  rw [compare_methods,
    show ["a.csv", "b.csv"].zip ["A", "B"] = [("a.csv", "A"), ("b.csv", "B")] from rfl,
    hloop]
  dsimp only
  rw [h1]

def fsNone : String → Option (List Record) := fun _ => none

/-- C9 counterexample: in single-dataset mode a missing input source makes
`plot_results` print its message and `return` normally, and the process exits
with status 0 — not the non-zero exit status the claim requires. -/
theorem single_missing_exit_counterexample :
    plot_resultsRun fsNone "results.csv" = some SingleOutcome.notFound
    ∧ mainSingleExit fsNone "results.csv" = 0 :=
  ⟨rfl, rfl⟩

/-- C9 (amended): in single-dataset mode a missing source aborts the plotting
early with a printed message and no report is produced, but the function
returns normally and the process exit status is 0 (the failure is not
signalled to the caller); in comparison mode the same condition is a
warn-and-skip of that pair. -/
theorem missing_source_single_vs_compare (fs : String → Option (List Record))
    (file m : String) (idx : Nat) (rest : List (String × String))
    (h : fs file = none) :
    plot_resultsRun fs file = some SingleOutcome.notFound
    ∧ mainSingleExit fs file = 0
    ∧ compareLoop fs idx ((file, m) :: rest)
        = (compareLoop fs (idx + 1) rest).map (fun p => (p.1, file :: p.2)) := by
  refine ⟨?_, ?_, compareLoop_cons_missing fs idx file m rest h⟩
  · rw [plot_resultsRun, h]
  · rw [mainSingleExit, plot_resultsRun, h]

theorem missing_source_single_vs_compare_witness :
    plot_resultsRun fsNone "results.csv" = some SingleOutcome.notFound
    ∧ mainSingleExit fsNone "results.csv" = 0
    ∧ compareLoop fsNone 0 [("results.csv", "FTCS")]
        = (compareLoop fsNone 1 []).map (fun p => (p.1, "results.csv" :: p.2)) :=
  missing_source_single_vs_compare fsNone "results.csv" "FTCS" 0 [] rfl

end HeatSolver

namespace HeatSolver

theorem compareLoop_none_of_existing (fs : String → Option (List Record)) :
    ∀ (pairs : List (String × String)) (idx i : Nat) (hi : i < pairs.length),
      4 ≤ idx + i → (fs (pairs.get ⟨i, hi⟩).1).isSome = true →
      compareLoop fs idx pairs = none := by
  intro pairs
  induction pairs with
  | nil =>
    intro idx i hi
    simp at hi
  | cons p rest ih =>
    intro idx i hi hge hsome
    obtain ⟨f, m⟩ := p
    cases i with
    | zero =>
      obtain ⟨ds, hds⟩ := Option.isSome_iff_exists.1 hsome
      have hidx : 4 ≤ idx := by omega
      have hc : colors[idx]? = none := List.getElem?_eq_none (by simp [colors]; omega)
      have hmk : markers[idx]? = none := List.getElem?_eq_none (by simp [markers]; omega)
      rw [compareLoop, show fs f = some ds from hds, hc, hmk]
    | succ j =>
      have hrec : compareLoop fs (idx + 1) rest = none := by
        refine ih (idx + 1) j (by simpa using hi) (by omega) ?_
        simpa using hsome
      rw [compareLoop]
      cases hf : fs f with
      | none => rw [hrec]
      | some ds =>
        cases hc : colors[idx]? with
        | none => rfl
        | some c =>
          cases hmk : markers[idx]? with
          | none => rfl
          | some mk => rw [hrec]

theorem exists_index_ge_of_countP_gt (p : (String × String) → Bool) :
    ∀ (l : List (String × String)) (k : Nat), k < l.countP p →
      ∃ i, ∃ hi : i < l.length, k ≤ i ∧ p (l.get ⟨i, hi⟩) = true := by
  intro l
  induction l with
  | nil =>
    intro k h
    simp [List.countP_nil] at h
  | cons a rest ih =>
    intro k h
    rw [List.countP_cons] at h
    by_cases hp : p a = true
    · cases k with
      | zero => exact ⟨0, by simp, le_refl 0, hp⟩
      | succ j =>
        have hj : j < rest.countP p := by
          rw [hp] at h
          simp at h
          omega
        obtain ⟨i, hi, hk, hpi⟩ := ih j hj
        exact ⟨i + 1, by simpa using hi, by omega, by simpa using hpi⟩
    · have hh : k < rest.countP p := by
        rw [Bool.not_eq_true] at hp
        rw [hp] at h
        simp at h
        omega
      obtain ⟨i, hi, hk, hpi⟩ := ih k hh
      exact ⟨i + 1, by simpa using hi, by omega, by simpa using hpi⟩

/-- C10: the color and marker lists have exactly four entries and are indexed
by the pair's position without wrap-around, so any comparison invocation with
more than four existing `(source, label)` pairs hits an out-of-range color
lookup and aborts: no comparison report is produced for more than four
methods. -/
theorem comparison_color_overflow (fs : String → Option (List Record))
    (csv_files method_names : List String)
    (h : 4 < existingCount fs csv_files method_names) :
    colors.length = 4 ∧ markers.length = 4
    ∧ compare_methods fs csv_files method_names = none := by
  refine ⟨rfl, rfl, ?_⟩
  obtain ⟨i, hi, hk, hpi⟩ :=
    exists_index_ge_of_countP_gt (fun p => (fs p.1).isSome)
      (csv_files.zip method_names) 4 h
  have hloop := compareLoop_none_of_existing fs (csv_files.zip method_names) 0 i hi
    (by omega) hpi
  rw [compare_methods, hloop]

def fsAll : String → Option (List Record) := fun _ => some []

theorem comparison_color_overflow_witness :
    colors.length = 4 ∧ markers.length = 4
    ∧ compare_methods fsAll ["a", "b", "c", "d", "e"] ["A", "B", "C", "D", "E"] = none :=
  comparison_color_overflow fsAll ["a", "b", "c", "d", "e"] ["A", "B", "C", "D", "E"]
    (by decide)

end HeatSolver
